import Mathlib

/-!
Shallow embedding of `src/background.js`, the animated "fishing net"
background script.  The script builds a 25 x 25 lattice of base
coordinates, turns it into 25 horizontal and 25 vertical polylines with a
trigonometric depth, and then, on every animation frame, advances a time
accumulator by a quantized random step and rewrites every z coordinate
with a time-shifted wave formula.  Machine floating point is modelled by
the real numbers; the host random source is modelled as an explicit real
sample in `[0, 1)` passed to each tick.
-/

namespace Background

noncomputable section

/-- Number of lines in the grid (`const gridSize = 25`). -/
def gridSize : ℕ := 25

/-- Space between lines (`const spacing = 1.0`). -/
def spacing : ℝ := 1.0

/-- Base coordinate record pushed into `netGeometry`
(`rowCoords.push({ x, y, baseZ: 0 })`). -/
structure LatticeCell where
  x : ℝ
  y : ℝ
  baseZ : ℝ

/-- A 3D point (`THREE.Vector3`). -/
structure Vec3 where
  x : ℝ
  y : ℝ
  z : ℝ

/-- Base coordinate grid built by the first double loop of
`createFishingNet`: `x = (j - gridSize/2) * spacing`,
`y = (i - gridSize/2) * spacing`, `baseZ = 0`. -/
def netGeometry : List (List LatticeCell) :=
  (List.range gridSize).map fun (i : ℕ) =>
    (List.range gridSize).map fun (j : ℕ) =>
      { x := ((j : ℝ) - (gridSize : ℝ) / 2) * spacing
        y := ((i : ℝ) - (gridSize : ℝ) / 2) * spacing
        baseZ := 0 }

/-- Lookup `netGeometry[i][j]` (in the script every access is in range). -/
def cellAt (i j : ℕ) : LatticeCell :=
  (netGeometry.getD i []).getD j ⟨0, 0, 0⟩

/-- Horizontal lines of `createFishingNet`: line `i` holds one point per
column `j`, with `z = Math.sin(j * 0.3 + i * 0.3) * 1 +
Math.cos((coord.x + coord.y) * 0.2) * 0.5`. -/
def horizontalLines : List (List Vec3) :=
  (List.range gridSize).map fun (i : ℕ) =>
    (List.range gridSize).map fun (j : ℕ) =>
      let coord := cellAt i j
      let z := Real.sin ((j : ℝ) * 0.3 + (i : ℝ) * 0.3) * 1 +
        Real.cos ((coord.x + coord.y) * 0.2) * 0.5
      Vec3.mk coord.x coord.y z

/-- Vertical lines of `createFishingNet`: line `j` holds one point per
row `i`, with `z = Math.cos(j * 0.3 + i * 0.3) * 1 +
Math.sin((coord.x + coord.y) * 0.2) * 0.5`. -/
def verticalLines : List (List Vec3) :=
  (List.range gridSize).map fun (j : ℕ) =>
    (List.range gridSize).map fun (i : ℕ) =>
      let coord := cellAt i j
      let z := Real.cos ((j : ℝ) * 0.3 + (i : ℝ) * 0.3) * 1 +
        Real.sin ((coord.x + coord.y) * 0.2) * 0.5
      Vec3.mk coord.x coord.y z

/-- All children of the net group, horizontal lines first
(`netGroup.add` is called for the horizontal pass, then the vertical). -/
def netLines : List (List Vec3) :=
  horizontalLines ++ verticalLines

/-- Mutable state touched by `animate`: the vertex lists of every line,
the group rotation and the time accumulator. -/
structure NetState where
  lines : List (List Vec3)
  rotationX : ℝ
  rotationY : ℝ
  time : ℝ

/-- State right after `createFishingNet` and scene assembly:
`let time = 0`, rotation still at the library default `0`. -/
def initialState : NetState :=
  { lines := netLines, rotationX := 0, rotationY := 0, time := 0 }

/-- Per-frame time increment `Math.floor(Math.random() * 20) * 0.001`,
with the random sample `u` made explicit. -/
def timeStep (u : ℝ) : ℝ :=
  ((Int.floor (u * 20) : ℤ) : ℝ) * 0.001

/-- Per-frame wave field evaluated inside the `animate` loop:
`Math.sin(x * 0.3 + y * 0.3 + time) * 1 + Math.cos((x + y) * 0.2) * 0.5`. -/
def depth (x y t : ℝ) : ℝ :=
  Real.sin (x * 0.3 + y * 0.3 + t) * 1 + Real.cos ((x + y) * 0.2) * 0.5

/-- Per-point update of the `animate` loop: read back `x` and `y` from the
position buffer and overwrite only the z slot (`positions[i+2] = z`). -/
def updateZ (t : ℝ) (p : Vec3) : Vec3 :=
  { x := p.x, y := p.y, z := depth p.x p.y t }

/-- One `animate` tick with random sample `u`: advance `time`, set the
group rotation, and rewrite every z coordinate of every line with the
per-frame wave field at the new time. -/
def tick (s : NetState) (u : ℝ) : NetState :=
  let t := s.time + timeStep u
  { time := t
    rotationX := Real.pi / 4 + Real.sin t * 0.1
    rotationY := Real.cos t * 0.2
    lines := s.lines.map fun line => line.map (updateZ t) }

/-- Iterated `animate` ticks driven by a list of random samples. -/
def ticks (s : NetState) (us : List ℝ) : NetState :=
  us.foldl tick s

/-- Point `pj` of line `li` of the current state (in the script every
access is in range). -/
def pointAt (s : NetState) (li pj : ℕ) : Vec3 :=
  (s.lines.getD li []).getD pj ⟨0, 0, 0⟩

/-- Camera and renderer fields touched by the resize listener. -/
structure ViewState where
  aspect : ℝ
  projectionCurrent : Bool
  rendererWidth : ℝ
  rendererHeight : ℝ

/-- Resize listener: `camera.aspect = newWidth / newHeight`,
`camera.updateProjectionMatrix()`, `renderer.setSize(newWidth, newHeight)`. -/
def onResize (v : ViewState) (newWidth newHeight : ℝ) : ViewState :=
  { aspect := newWidth / newHeight
    projectionCurrent := true
    rendererWidth := newWidth
    rendererHeight := newHeight }

/-! Basic access lemmas. -/

lemma cellAt_eq (i j : ℕ) (hi : i < gridSize) (hj : j < gridSize) :
    cellAt i j =
      { x := ((j : ℝ) - (gridSize : ℝ) / 2) * spacing
        y := ((i : ℝ) - (gridSize : ℝ) / 2) * spacing
        baseZ := 0 } := by
  simp [cellAt, netGeometry, List.getD_eq_getElem?_getD, List.getElem?_map,
    List.getElem?_range, hi, hj]

lemma horizontalLines_length : horizontalLines.length = gridSize := by
  simp [horizontalLines]

lemma verticalLines_length : verticalLines.length = gridSize := by
  simp [verticalLines]

lemma netLines_length : netLines.length = 2 * gridSize := by
  simp [netLines, horizontalLines, verticalLines]
  omega

lemma pointAt_initial_h (i j : ℕ) (hi : i < gridSize) (hj : j < gridSize) :
    pointAt initialState i j =
      Vec3.mk (cellAt i j).x (cellAt i j).y
        (Real.sin ((j : ℝ) * 0.3 + (i : ℝ) * 0.3) * 1 +
          Real.cos (((cellAt i j).x + (cellAt i j).y) * 0.2) * 0.5) := by
  have hlen : i < horizontalLines.length := by
    rw [horizontalLines_length]; exact hi
  simp [pointAt, initialState, netLines, List.getD_eq_getElem?_getD,
    List.getElem?_append, horizontalLines, List.getElem?_map,
    List.getElem?_range, hi, hj]

lemma pointAt_initial_v (i j : ℕ) (hi : i < gridSize) (hj : j < gridSize) :
    pointAt initialState (gridSize + j) i =
      Vec3.mk (cellAt i j).x (cellAt i j).y
        (Real.cos ((j : ℝ) * 0.3 + (i : ℝ) * 0.3) * 1 +
          Real.sin (((cellAt i j).x + (cellAt i j).y) * 0.2) * 0.5) := by
  have hlen : ¬ gridSize + j < gridSize := by omega
  have hsub : gridSize + j - gridSize = j := by omega
  simp [pointAt, initialState, netLines, List.getD_eq_getElem?_getD,
    List.getElem?_append, horizontalLines_length, hlen, hsub, verticalLines,
    List.getElem_append_right, Nat.le_add_right,
    List.getElem?_map, List.getElem?_range, hi, hj]

/-! Lemmas about single ticks and iterated ticks. -/

lemma tick_time (s : NetState) (u : ℝ) : (tick s u).time = s.time + timeStep u :=
  rfl

lemma ticks_append (s : NetState) (us vs : List ℝ) :
    ticks s (us ++ vs) = ticks (ticks s us) vs := by
  simp [ticks, List.foldl_append]

lemma pointAt_tick (s : NetState) (u : ℝ) (li pj : ℕ) (hli : li < s.lines.length)
    (hpj : pj < (s.lines.getD li []).length) :
    pointAt (tick s u) li pj = updateZ (s.time + timeStep u) (pointAt s li pj) := by
  have h1 : s.lines[li]? = some s.lines[li] := List.getElem?_eq_getElem hli
  have h2 : s.lines.getD li [] = s.lines[li] := by
    rw [List.getD_eq_getElem?_getD, h1, Option.getD_some]
  rw [h2] at hpj
  have h3 : s.lines[li][pj]? = some (s.lines[li][pj]) := List.getElem?_eq_getElem hpj
  simp [pointAt, tick, List.getD_eq_getElem?_getD, List.getElem?_map, h1, h2, h3]

lemma pointAt_tick_xy (s : NetState) (u : ℝ) (li pj : ℕ) :
    (pointAt (tick s u) li pj).x = (pointAt s li pj).x ∧
      (pointAt (tick s u) li pj).y = (pointAt s li pj).y := by
  rcases h1 : s.lines[li]? with _ | line
  · simp [pointAt, tick, List.getD_eq_getElem?_getD, List.getElem?_map, h1]
  · rcases h2 : (id line)[pj]? with _ | p
    · rw [id_eq] at h2
      simp [pointAt, tick, List.getD_eq_getElem?_getD, List.getElem?_map, h1, h2]
    · rw [id_eq] at h2
      simp [pointAt, tick, updateZ, List.getD_eq_getElem?_getD, List.getElem?_map,
        h1, h2]

lemma pointAt_ticks_xy (us : List ℝ) (s : NetState) (li pj : ℕ) :
    (pointAt (ticks s us) li pj).x = (pointAt s li pj).x ∧
      (pointAt (ticks s us) li pj).y = (pointAt s li pj).y := by
  induction us generalizing s with
  | nil => exact ⟨rfl, rfl⟩
  | cons u us ih =>
      have hstep := pointAt_tick_xy s u li pj
      have htail := ih (tick s u)
      have hcons : ticks s (u :: us) = ticks (tick s u) us := rfl
      rw [hcons]
      exact ⟨htail.1.trans hstep.1, htail.2.trans hstep.2⟩

lemma tick_lines_length (s : NetState) (u : ℝ) :
    (tick s u).lines.length = s.lines.length := by
  simp [tick]

lemma tick_getD_length (s : NetState) (u : ℝ) (li : ℕ) :
    ((tick s u).lines.getD li []).length = (s.lines.getD li []).length := by
  rcases h1 : s.lines[li]? with _ | line
  · simp [tick, List.getD_eq_getElem?_getD, List.getElem?_map, h1]
  · simp [tick, List.getD_eq_getElem?_getD, List.getElem?_map, h1]

lemma ticks_lines_length (us : List ℝ) (s : NetState) :
    (ticks s us).lines.length = s.lines.length := by
  induction us generalizing s with
  | nil => rfl
  | cons u us ih =>
      have hcons : ticks s (u :: us) = ticks (tick s u) us := rfl
      rw [hcons, ih (tick s u), tick_lines_length]

lemma ticks_getD_length (us : List ℝ) (s : NetState) (li : ℕ) :
    ((ticks s us).lines.getD li []).length = (s.lines.getD li []).length := by
  induction us generalizing s with
  | nil => rfl
  | cons u us ih =>
      have hcons : ticks s (u :: us) = ticks (tick s u) us := rfl
      rw [hcons, ih (tick s u), tick_getD_length]

/-- Projection of a state to the x and y coordinates of all its points. -/
def xyOf (s : NetState) : List (List (ℝ × ℝ)) :=
  s.lines.map fun line => line.map fun p => (p.x, p.y)

lemma xyOf_tick (s : NetState) (u : ℝ) : xyOf (tick s u) = xyOf s := by
  simp only [xyOf, tick, List.map_map]
  congr 1
  funext line
  simp only [Function.comp, List.map_map]
  rfl

lemma xyOf_ticks (s : NetState) (us : List ℝ) : xyOf (ticks s us) = xyOf s := by
  induction us generalizing s with
  | nil => rfl
  | cons u us ih =>
      have hcons : ticks s (u :: us) = ticks (tick s u) us := rfl
      rw [hcons, ih (tick s u), xyOf_tick]

lemma length_of_mem_netLines {l : List Vec3} (h : l ∈ netLines) :
    l.length = gridSize := by
  rcases List.mem_append.1 h with h | h
  · rw [horizontalLines] at h
    rcases List.mem_map.1 h with ⟨a, _, rfl⟩
    simp
  · rw [verticalLines] at h
    rcases List.mem_map.1 h with ⟨a, _, rfl⟩
    simp

lemma netLines_getD_length (li : ℕ) (hli : li < netLines.length) :
    (netLines.getD li []).length = gridSize := by
  have h1 : netLines[li]? = some netLines[li] := List.getElem?_eq_getElem hli
  have h2 : netLines.getD li [] = netLines[li] := by
    rw [List.getD_eq_getElem?_getD, h1, Option.getD_some]
  rw [h2]
  exact length_of_mem_netLines (List.getElem_mem hli)

lemma timeStep_nonneg {u : ℝ} (hu : 0 ≤ u) : 0 ≤ timeStep u := by
  have h0 : (0 : ℝ) ≤ u * 20 := by nlinarith
  have h1 : (0 : ℤ) ≤ Int.floor (u * 20) := Int.floor_nonneg.2 h0
  have h2 : (0 : ℝ) ≤ ((Int.floor (u * 20) : ℤ) : ℝ) := by exact_mod_cast h1
  rw [timeStep]
  nlinarith

lemma timeStep_le {u : ℝ} (hu : u < 1) : timeStep u ≤ 0.019 := by
  have h0 : u * 20 < ((20 : ℤ) : ℝ) := by push_cast; nlinarith
  have h1 : Int.floor (u * 20) < (20 : ℤ) := Int.floor_lt.2 h0
  have h2 : (Int.floor (u * 20) : ℤ) ≤ 19 := by omega
  have h3 : ((Int.floor (u * 20) : ℤ) : ℝ) ≤ 19 := by exact_mod_cast h2
  rw [timeStep]
  nlinarith

lemma ticks_time_mono (s : NetState) (us : List ℝ) (h : ∀ u ∈ us, 0 ≤ u) :
    s.time ≤ (ticks s us).time := by
  induction us generalizing s with
  | nil => exact le_refl _
  | cons u us ih =>
      have hcons : ticks s (u :: us) = ticks (tick s u) us := rfl
      have hu : 0 ≤ u := h u (List.mem_cons_self u us)
      have hstep : s.time ≤ (tick s u).time := by
        rw [tick_time]
        have := timeStep_nonneg hu
        linarith
      have htail : (tick s u).time ≤ (ticks (tick s u) us).time :=
        ih (tick s u) fun v hv => h v (List.mem_cons_of_mem u hv)
      rw [hcons]
      exact hstep.trans htail

/-! Claim theorems. -/

/-- Claim C1: each animate tick recomputes the depth of every point of every
line, regardless of orientation, as `sin(x*0.3 + y*0.3 + t)*1 +
cos((x+y)*0.2)*0.5` at the new time, and the per-frame wave field satisfies
`depth 3 4 0 = sin 2.1 * 1 + cos 1.4 * 0.5` exactly. -/
theorem animate_depth_formula (s : NetState) (u : ℝ) (li pj : ℕ)
    (hli : li < s.lines.length) (hpj : pj < (s.lines.getD li []).length) :
    (pointAt (tick s u) li pj).z =
      Real.sin ((pointAt s li pj).x * 0.3 + (pointAt s li pj).y * 0.3 +
          (tick s u).time) * 1 +
        Real.cos (((pointAt s li pj).x + (pointAt s li pj).y) * 0.2) * 0.5 ∧
      depth 3 4 0 = Real.sin 2.1 * 1 + Real.cos 1.4 * 0.5 := by
  constructor
  · rw [pointAt_tick s u li pj hli hpj, tick_time]
    rfl
  · rw [depth]
    norm_num

/-- Witness for C1 at line 0, point 0 of the freshly built net. -/
theorem animate_depth_formula_witness :
    0 < initialState.lines.length ∧ 0 < (initialState.lines.getD 0 []).length ∧
      ((pointAt (tick initialState 0) 0 0).z =
        Real.sin ((pointAt initialState 0 0).x * 0.3 +
            (pointAt initialState 0 0).y * 0.3 + (tick initialState 0).time) * 1 +
          Real.cos (((pointAt initialState 0 0).x +
            (pointAt initialState 0 0).y) * 0.2) * 0.5 ∧
        depth 3 4 0 = Real.sin 2.1 * 1 + Real.cos 1.4 * 0.5) := by
  have h0 : initialState.lines = netLines := rfl
  have h1 : 0 < initialState.lines.length := by
    rw [h0, netLines_length]
    norm_num [gridSize]
  have h2 : 0 < (initialState.lines.getD 0 []).length := by
    rw [h0, netLines_getD_length 0 (by rw [netLines_length]; norm_num [gridSize])]
    norm_num [gridSize]
  exact ⟨h1, h2, animate_depth_formula initialState 0 0 0 h1 h2⟩

/-- Claim C2: at construction time, point `j` of horizontal line `i` has depth
`sin(j*0.3 + i*0.3)*1 + cos((x+y)*0.2)*0.5` and point `i` of vertical line `j`
has depth `cos(j*0.3 + i*0.3)*1 + sin((x+y)*0.2)*0.5`, where `x` and `y` are
the world coordinates of lattice cell `(i, j)`. -/
theorem construction_depth_formula (i j : ℕ) (hi : i < gridSize) (hj : j < gridSize) :
    (pointAt initialState i j).z =
      Real.sin ((j : ℝ) * 0.3 + (i : ℝ) * 0.3) * 1 +
        Real.cos (((cellAt i j).x + (cellAt i j).y) * 0.2) * 0.5 ∧
      (pointAt initialState (gridSize + j) i).z =
        Real.cos ((j : ℝ) * 0.3 + (i : ℝ) * 0.3) * 1 +
          Real.sin (((cellAt i j).x + (cellAt i j).y) * 0.2) * 0.5 := by
  rw [pointAt_initial_h i j hi hj, pointAt_initial_v i j hi hj]
  exact ⟨rfl, rfl⟩

/-- Witness for C2 at lattice cell `(3, 4)`. -/
theorem construction_depth_formula_witness :
    3 < gridSize ∧ 4 < gridSize ∧
      ((pointAt initialState 3 4).z =
        Real.sin ((4 : ℝ) * 0.3 + (3 : ℝ) * 0.3) * 1 +
          Real.cos (((cellAt 3 4).x + (cellAt 3 4).y) * 0.2) * 0.5 ∧
        (pointAt initialState (gridSize + 4) 3).z =
          Real.cos ((4 : ℝ) * 0.3 + (3 : ℝ) * 0.3) * 1 +
            Real.sin (((cellAt 3 4).x + (cellAt 3 4).y) * 0.2) * 0.5) :=
  ⟨by decide, by decide, construction_depth_formula 3 4 (by decide) (by decide)⟩

/-- Claim C3: any number of animate ticks leaves the x and y coordinate of
every point of every line exactly at its construction-time value; a single
tick changes only the z component of each point. -/
theorem ticks_preserve_xy :
    (∀ us : List ℝ, xyOf (ticks initialState us) = xyOf initialState) ∧
      ∀ (s : NetState) (u : ℝ) (li pj : ℕ),
        (pointAt (tick s u) li pj).x = (pointAt s li pj).x ∧
          (pointAt (tick s u) li pj).y = (pointAt s li pj).y :=
  ⟨fun us => xyOf_ticks initialState us,
    fun s u li pj => pointAt_tick_xy s u li pj⟩

/-- Claim C4: the base lattice satisfies
`cell[i][j].x = (j - gridSize/2) * spacing` and
`cell[i][j].y = (i - gridSize/2) * spacing`, with the defaults
`gridSize = 25` and `spacing = 1`. -/
theorem lattice_coordinates (i j : ℕ) (hi : i < gridSize) (hj : j < gridSize) :
    (cellAt i j).x = ((j : ℝ) - (gridSize : ℝ) / 2) * spacing ∧
      (cellAt i j).y = ((i : ℝ) - (gridSize : ℝ) / 2) * spacing ∧
      gridSize = 25 ∧ spacing = 1 := by
  rw [cellAt_eq i j hi hj]
  refine ⟨rfl, rfl, rfl, ?_⟩
  rw [spacing]
  norm_num

/-- Witness for C4 at lattice cell `(3, 4)`. -/
theorem lattice_coordinates_witness :
    3 < gridSize ∧ 4 < gridSize ∧
      ((cellAt 3 4).x = ((4 : ℝ) - (gridSize : ℝ) / 2) * spacing ∧
        (cellAt 3 4).y = ((3 : ℝ) - (gridSize : ℝ) / 2) * spacing ∧
        gridSize = 25 ∧ spacing = 1) :=
  ⟨by decide, by decide, lattice_coordinates 3 4 (by decide) (by decide)⟩

/-- Claim C5 counterexample: the multiset of lattice x coordinates is not
symmetric about 0.  Cell `(0, 0)` has `x = -12.5`, but no cell has
`x = 12.5`, since the largest x coordinate is `(24 - 12.5) * 1 = 11.5`. -/
theorem lattice_not_origin_symmetric :
    ¬ (∀ i j : ℕ, i < gridSize → j < gridSize →
        ∃ i' j' : ℕ, i' < gridSize ∧ j' < gridSize ∧
          (cellAt i' j').x = -((cellAt i j).x)) := by
  intro h
  obtain ⟨i', j', hi', hj', heq⟩ := h 0 0 (by decide) (by decide)
  rw [cellAt_eq i' j' hi' hj', cellAt_eq 0 0 (by decide) (by decide)] at heq
  have hj24 : j' ≤ 24 := by
    have : gridSize = 25 := rfl
    omega
  have hj24R : (j' : ℝ) ≤ 24 := by exact_mod_cast hj24
  rw [spacing] at heq
  norm_num [gridSize] at heq
  linarith

/-- Claim C5 amended: the lattice is symmetric about
`(-spacing/2, -spacing/2)`, that is, reflecting a cell through the point
`-spacing/2` in each coordinate (x goes to `-spacing - x`, y to
`-spacing - y`) lands on another lattice cell; it is not symmetric about
the origin. -/
theorem lattice_symmetric_about_neg_half (i j : ℕ)
    (hi : i < gridSize) (hj : j < gridSize) :
    ∃ i' j' : ℕ, i' < gridSize ∧ j' < gridSize ∧
      (cellAt i' j').x = -spacing - (cellAt i j).x ∧
      (cellAt i' j').y = -spacing - (cellAt i j).y := by
  have hg : gridSize = 25 := rfl
  refine ⟨gridSize - 1 - i, gridSize - 1 - j, by omega, by omega, ?_, ?_⟩
  · rw [cellAt_eq _ _ (by omega) (by omega), cellAt_eq i j hi hj]
    have hcast : ((gridSize - 1 - j : ℕ) : ℝ) = 24 - (j : ℝ) := by
      have hj24 : j ≤ 24 := by omega
      have : gridSize - 1 - j = 24 - j := by omega
      rw [this]
      push_cast [hj24]
      ring
    rw [hcast, spacing]
    norm_num [gridSize]
    ring
  · rw [cellAt_eq _ _ (by omega) (by omega), cellAt_eq i j hi hj]
    have hcast : ((gridSize - 1 - i : ℕ) : ℝ) = 24 - (i : ℝ) := by
      have hi24 : i ≤ 24 := by omega
      have : gridSize - 1 - i = 24 - i := by omega
      rw [this]
      push_cast [hi24]
      ring
    rw [hcast, spacing]
    norm_num [gridSize]
    ring

/-- Witness for the amended C5 at lattice cell `(0, 0)`. -/
theorem lattice_symmetric_about_neg_half_witness :
    0 < gridSize ∧
      ∃ i' j' : ℕ, i' < gridSize ∧ j' < gridSize ∧
        (cellAt i' j').x = -spacing - (cellAt 0 0).x ∧
        (cellAt i' j').y = -spacing - (cellAt 0 0).y :=
  ⟨by decide, lattice_symmetric_about_neg_half 0 0 (by decide) (by decide)⟩

/-- Claim C6: the net consists of exactly `2 * gridSize` polylines
(`gridSize` horizontal followed by `gridSize` vertical), and every polyline
holds exactly `gridSize` points. -/
theorem net_line_counts :
    netLines.length = 2 * gridSize ∧
      horizontalLines.length = gridSize ∧ verticalLines.length = gridSize ∧
      ∀ l ∈ netLines, l.length = gridSize :=
  ⟨netLines_length, horizontalLines_length, verticalLines_length,
    fun _ hl => length_of_mem_netLines hl⟩

/-- Claim C7: the time accumulator starts at 0, each tick adds
`floor(u * 20) * 0.001` for the random sample `u`, that increment lies in
`[0, 0.019]` whenever `u` is in `[0, 1)`, and over any sequence of
nonnegative samples time is monotonically non-decreasing and never reset. -/
theorem time_accumulator_props :
    initialState.time = 0 ∧
      (∀ (s : NetState) (u : ℝ), (tick s u).time = s.time + timeStep u) ∧
      (∀ u : ℝ, 0 ≤ u → u < 1 → 0 ≤ timeStep u ∧ timeStep u ≤ 0.019) ∧
      ∀ (s : NetState) (us : List ℝ), (∀ u ∈ us, 0 ≤ u) →
        s.time ≤ (ticks s us).time :=
  ⟨rfl, fun s u => tick_time s u,
    fun _ hu hu1 => ⟨timeStep_nonneg hu, timeStep_le hu1⟩,
    fun s us h => ticks_time_mono s us h⟩

/-- Witness for C7: the bound and monotonicity parts instantiated at the
sample 1/2 and the sample list consisting of 1/2 alone. -/
theorem time_accumulator_props_witness :
    (0 ≤ (1 / 2 : ℝ) ∧ (1 / 2 : ℝ) < 1 ∧
        (0 ≤ timeStep (1 / 2) ∧ timeStep (1 / 2) ≤ 0.019)) ∧
      ((∀ u ∈ [(1 / 2 : ℝ)], 0 ≤ u) ∧
        initialState.time ≤ (ticks initialState [(1 / 2 : ℝ)]).time) :=
  ⟨⟨by norm_num, by norm_num,
      time_accumulator_props.2.2.1 (1 / 2) (by norm_num) (by norm_num)⟩,
    ⟨by norm_num,
      time_accumulator_props.2.2.2 initialState [(1 / 2 : ℝ)] (by norm_num)⟩⟩

/-- Claim C8: the resize listener sets the camera aspect ratio to exactly
`newWidth / newHeight`, refreshes the projection, and sets the renderer
output size to exactly `(newWidth, newHeight)`; at `(800, 600)` the aspect
becomes exactly `800 / 600`. -/
theorem resize_contract :
    (∀ (v : ViewState) (w h : ℝ),
        (onResize v w h).aspect = w / h ∧
          (onResize v w h).projectionCurrent = true ∧
          (onResize v w h).rendererWidth = w ∧
          (onResize v w h).rendererHeight = h) ∧
      ∀ v : ViewState, (onResize v 800 600).aspect = 800 / 600 :=
  ⟨fun _ _ _ => ⟨rfl, rfl, rfl, rfl⟩, fun _ => rfl⟩

/-- Claim C9: after any completed tick every point depth equals the single
per-frame wave field at the current point position and time, so the
construction-time asymmetry between horizontal and vertical lines
disappears: after at least one tick, the crossing of horizontal line `i`
and vertical line `j` carries the same z on both lines. -/
theorem post_tick_depth_unified (s : NetState) (u : ℝ) (us : List ℝ) (i j : ℕ)
    (hi : i < gridSize) (hj : j < gridSize) :
    (∀ li pj : ℕ, li < s.lines.length → pj < (s.lines.getD li []).length →
        (pointAt (tick s u) li pj).z =
          depth (pointAt (tick s u) li pj).x (pointAt (tick s u) li pj).y
            (tick s u).time) ∧
      (pointAt (ticks initialState (us ++ [u])) i j).z =
        (pointAt (ticks initialState (us ++ [u])) (gridSize + j) i).z := by
  have hg : gridSize = 25 := rfl
  constructor
  · intro li pj hli hpj
    rw [pointAt_tick s u li pj hli hpj, tick_time]
    rfl
  · have hp : ticks initialState (us ++ [u]) = tick (ticks initialState us) u := by
      rw [ticks_append]
      rfl
    have hLen : (ticks initialState us).lines.length = 2 * gridSize := by
      rw [ticks_lines_length us initialState]
      exact netLines_length
    have hNet : netLines.length = 2 * gridSize := netLines_length
    have h1 : i < (ticks initialState us).lines.length := by omega
    have h3 : gridSize + j < (ticks initialState us).lines.length := by omega
    have h2 : j < ((ticks initialState us).lines.getD i []).length := by
      rw [ticks_getD_length us initialState i]
      rw [show initialState.lines = netLines from rfl,
        netLines_getD_length i (by omega)]
      exact hj
    have h4 : i < ((ticks initialState us).lines.getD (gridSize + j) []).length := by
      rw [ticks_getD_length us initialState (gridSize + j)]
      rw [show initialState.lines = netLines from rfl,
        netLines_getD_length (gridSize + j) (by omega)]
      exact hi
    have hx1 : (pointAt (ticks initialState us) i j).x = (cellAt i j).x := by
      rw [(pointAt_ticks_xy us initialState i j).1, pointAt_initial_h i j hi hj]
    have hy1 : (pointAt (ticks initialState us) i j).y = (cellAt i j).y := by
      rw [(pointAt_ticks_xy us initialState i j).2, pointAt_initial_h i j hi hj]
    have hx2 : (pointAt (ticks initialState us) (gridSize + j) i).x =
        (cellAt i j).x := by
      rw [(pointAt_ticks_xy us initialState (gridSize + j) i).1,
        pointAt_initial_v i j hi hj]
    have hy2 : (pointAt (ticks initialState us) (gridSize + j) i).y =
        (cellAt i j).y := by
      rw [(pointAt_ticks_xy us initialState (gridSize + j) i).2,
        pointAt_initial_v i j hi hj]
    rw [hp, pointAt_tick _ u i j h1 h2, pointAt_tick _ u (gridSize + j) i h3 h4]
    show depth (pointAt (ticks initialState us) i j).x
        (pointAt (ticks initialState us) i j).y _ =
      depth (pointAt (ticks initialState us) (gridSize + j) i).x
        (pointAt (ticks initialState us) (gridSize + j) i).y _
    rw [hx1, hy1, hx2, hy2]

/-- Witness for C9 at the single-tick run with sample 0, crossing `(0, 0)`. -/
theorem post_tick_depth_unified_witness :
    0 < gridSize ∧
      ((∀ li pj : ℕ, li < initialState.lines.length →
          pj < (initialState.lines.getD li []).length →
          (pointAt (tick initialState 0) li pj).z =
            depth (pointAt (tick initialState 0) li pj).x
              (pointAt (tick initialState 0) li pj).y (tick initialState 0).time) ∧
        (pointAt (ticks initialState ([] ++ [0])) 0 0).z =
          (pointAt (ticks initialState ([] ++ [0])) (gridSize + 0) 0).z) :=
  ⟨by decide, post_tick_depth_unified initialState 0 [] 0 0 (by decide) (by decide)⟩

/-- Claim C10: the per-frame wave field depends on position only through the
sum `x + y`, so within any tick the depth is constant along every
anti-diagonal of the net. -/
theorem depth_depends_only_on_sum (x y w v t : ℝ) (h : x + y = w + v) :
    depth x y t = depth w v t := by
  rw [depth, depth]
  have hx : x * 0.3 + y * 0.3 + t = w * 0.3 + v * 0.3 + t := by linarith
  rw [hx, h]

/-- Witness for C10 at the positions `(1, 2)` and `(0, 3)` with time 0. -/
theorem depth_depends_only_on_sum_witness :
    (1 : ℝ) + 2 = 0 + 3 ∧ depth 1 2 0 = depth 0 3 0 :=
  ⟨by norm_num, depth_depends_only_on_sum 1 2 0 3 0 (by norm_num)⟩

end

end Background
